import Mathlib

/-!
Shallow embedding of the earnings-calendar page logic
(`src/app/page.tsx` of the ai-earnings-calendar repository).

The database client returns, for each query, a response holding an
optional row list (`data`) and an optional error message (`error`);
the client never populates both.  `loadUpcomingEarnings` is embedded as
a pure function of the three query responses, returning both the merged
row list and the trace of database calls it issues, so that the
short-circuit / "dependent queries are never invoked" behaviour is
visible in the model.
-/

/-- A JavaScript number as used for `market_cap_millions_usd`:
either NaN or an actual (rational) value. -/
inductive JSNum where
  | nan : JSNum
  | val (q : ℚ) : JSNum
deriving DecidableEq

/-- `EarningsRow` of page.tsx: one row of the `earnings_calendar` query. -/
structure EarningsRow where
  id : Int
  isin : String
  date : String
  source : Option String
  created_at : String
deriving DecidableEq

/-- `CompanyRow` of page.tsx: one row of the `company` query. -/
structure CompanyRow where
  isin : String
  friendly_name : Option String := none
  name : Option String := none
  gics_sector : Option String := none
  gics_industry : Option String := none
  market_cap_millions_usd : Option JSNum := none
  country : Option String := none
  ticker : Option String := none
deriving DecidableEq

/-- `ReportRow` of page.tsx: one row of the `reports` query. -/
structure ReportRow where
  isin : String
  storage_url : Option String := none
  generated_at : Option String := none
deriving DecidableEq

/-- `CalendarRow` of page.tsx: an earnings row with the optional
company and report enrichments attached (`EarningsRow & \x7b company?; report? \x7d`). -/
structure CalendarRow extends EarningsRow where
  company : Option CompanyRow := none
  report : Option ReportRow := none
deriving DecidableEq

/-- A supabase query response: `data` (null or a row list) and `error`
(null or a message).  The client never sets both fields at once. -/
structure QResult (ρ : Type) where
  data : Option (List ρ) := none
  error : Option String := none
deriving DecidableEq

/-- JavaScript truthiness of an optional string:
`undefined`, `null` and `""` are falsy, every other string is truthy. -/
def truthyStr : Option String → Bool
  | some s => s ≠ ""
  | none => false

/-- JavaScript `a || b` on an optional string versus a string. -/
def jsOr (a : Option String) (b : String) : String :=
  match a with
  | some s => if s = "" then b else s
  | none => b

/-- `formatCompany` of page.tsx:
`row.company?.friendly_name || row.company?.name || row.isin`. -/
def formatCompany (row : CalendarRow) : String :=
  let friendly := row.company.bind (·.friendly_name)
  let fallback := row.company.bind (·.name)
  jsOr friendly (jsOr fallback row.isin)

/-- `formatTicker` of page.tsx: keep the truthy values among
`[ticker?.trim(), isin, country]` and join them with " • ". -/
def formatTicker (row : CalendarRow) : String :=
  let ticker := (row.company.bind (·.ticker)).map String.trim
  let country := row.company.bind (·.country)
  let parts := ([ticker, some row.isin, country].filter truthyStr).map (fun v => v.getD "")
  String.intercalate " • " parts

/-- The ticker line as rendered by `Home` (page.tsx line 212):
`tickerLine || row.isin`. -/
def tickerLineDisplay (row : CalendarRow) : String :=
  let t := formatTicker row
  if t = "" then row.isin else t

/-- Spec-side restatement of the ticker line, following the words of the
specification: "join non-empty values among (ticker (trimmed), identifier,
country) with a separator, omitting empty/missing parts; if the resulting
joined string is empty, fall back to the bare identifier". -/
def tickerLineFromSpec (row : CalendarRow) : String :=
  let vals := ([(row.company.bind (·.ticker)).map String.trim, some row.isin,
      row.company.bind (·.country)].filterMap id).filter (· ≠ "")
  let joined := String.intercalate " • " vals
  if joined = "" then row.isin else joined

/-- Render a non-negative count of tenths as a decimal string with at
most one fractional digit ("15" ↦ "1.5", "20" ↦ "2"). -/
def tenthsString (t : Nat) : String :=
  let whole := t / 10
  let frac := t % 10
  if frac = 0 then toString whole else toString whole ++ "." ++ toString frac

/-- Round a non-negative rational to tenths, half away from zero
(the "halfExpand" rounding of `Intl.NumberFormat`). -/
def roundTenths (q : ℚ) : Nat :=
  ⌊q * 10 + 1 / 2⌋.toNat

/-- Model of `Intl.NumberFormat("en-US", compact)` with
`maximumFractionDigits: 1` on a non-negative value: pick the K/M/B/T
unit by magnitude and show at most one decimal. -/
def compactAbs (q : ℚ) : String :=
  if q < 1000 then tenthsString (roundTenths q)
  else if q < 1000000 then tenthsString (roundTenths (q / 1000)) ++ "K"
  else if q < 1000000000 then tenthsString (roundTenths (q / 1000000)) ++ "M"
  else if q < 1000000000000 then tenthsString (roundTenths (q / 1000000000)) ++ "B"
  else tenthsString (roundTenths (q / 1000000000000)) ++ "T"

/-- Model of the compact USD currency formatter used by `formatMarketCap`. -/
def formatCurrencyCompact (q : ℚ) : String :=
  if q < 0 then "-$" ++ compactAbs (-q) else "$" ++ compactAbs q

/-- `formatMarketCap` of page.tsx: "—" for null or NaN, otherwise the
millions value times 1,000,000 formatted as compact USD currency. -/
def formatMarketCap : Option JSNum → String
  | none => "—"
  | some JSNum.nan => "—"
  | some (JSNum.val q) => formatCurrencyCompact (q * 1000000)

/-- One database call issued by `loadUpcomingEarnings`. -/
inductive DBCall where
  | earningsQuery : DBCall
  | companyQuery (isins : List String) : DBCall
  | reportQuery (isins : List String) : DBCall
deriving DecidableEq

/-- The three query responses the environment would hand back:
the primary earnings query, and the two dependent lookups (what the
company / report queries return if they are issued). -/
structure SupabaseEnv where
  earnings : QResult EarningsRow
  companies : QResult CompanyRow
  reports : QResult ReportRow

/-- Deduplication worker: keep each element not already seen,
threading the set of seen elements. -/
def dedupAux : List String → List String → List String
  | _, [] => []
  | seen, x :: xs =>
    if x ∈ seen then dedupAux seen xs else x :: dedupAux (x :: seen) xs

/-- Deduplicate keeping the first occurrence of each element
(the behaviour of `new Set(...)` iteration order in JavaScript). -/
def dedupKeepFirst (l : List String) : List String :=
  dedupAux [] l

/-- page.tsx line 103:
`Array.from(new Set(earningsRows.map(row => row.isin).filter(Boolean)))`. -/
def collectIsins (rows : List EarningsRow) : List String :=
  dedupKeepFirst ((rows.map (·.isin)).filter (· ≠ ""))

/-- `.get` on the last-write-wins keyed map built by
`rows.reduce((map, c) => map.set(c.isin, c), new Map())`:
the map holds, for each key, the last row with that isin. -/
def companyMapGet (rows : List CompanyRow) (key : String) : Option CompanyRow :=
  rows.reverse.find? (fun c => c.isin == key)

/-- `.get` on the last-write-wins keyed report map (same construction). -/
def reportMapGet (rows : List ReportRow) (key : String) : Option ReportRow :=
  rows.reverse.find? (fun r => r.isin == key)

/-- The company rows available for the merge: the dependent query result
if the isin set is non-empty, else the resolved `\x7b data: [], error: null \x7d`. -/
def depCompanies (db : SupabaseEnv) (isins : List String) : List CompanyRow :=
  (if isins.length > 0 then db.companies else ⟨some [], none⟩).data.getD []

/-- The report rows available for the merge (same shape as `depCompanies`). -/
def depReports (db : SupabaseEnv) (isins : List String) : List ReportRow :=
  (if isins.length > 0 then db.reports else ⟨some [], none⟩).data.getD []

/-- The database calls issued after a non-empty primary result:
the two dependent lookups run only if the isin set is non-empty. -/
def issuedCalls (isins : List String) : List DBCall :=
  if isins.length > 0 then
    [DBCall.earningsQuery, DBCall.companyQuery isins, DBCall.reportQuery isins]
  else [DBCall.earningsQuery]

/-- `loadUpcomingEarnings` of page.tsx as a pure function of the three
query responses.  Returns the merged calendar rows together with the
trace of issued database calls.  The function is total: every failure
path degrades to fewer rows, never to an exception. -/
def loadUpcomingEarnings (db : SupabaseEnv) : List CalendarRow × List DBCall :=
  match db.earnings.error with
  | some _ => ([], [DBCall.earningsQuery])
  | none =>
    match db.earnings.data.getD [] with
    | [] => ([], [DBCall.earningsQuery])
    | a :: rest =>
      let earningsRows := a :: rest
      let isins := collectIsins earningsRows
      let companies := depCompanies db isins
      let reports := (depReports db isins).filter (fun r => truthyStr r.storage_url)
      (earningsRows.map (fun row =>
        { toEarningsRow := row
          company := companyMapGet companies row.isin
          report := reportMapGet reports row.isin }),
       issuedCalls isins)

/-! ## Helper lemmas -/

theorem mem_dedupAux (l : List String) :
    ∀ (seen : List String) (s : String), s ∈ dedupAux seen l ↔ s ∈ l ∧ s ∉ seen := by
  induction l with
  | nil => intro seen s; simp [dedupAux]
  | cons x xs ih =>
    intro seen s
    rw [dedupAux]
    by_cases hx : x ∈ seen
    · rw [if_pos hx, ih seen s]
      constructor
      · rintro ⟨h1, h2⟩; exact ⟨List.mem_cons_of_mem _ h1, h2⟩
      · rintro ⟨h1, h2⟩
        rcases List.mem_cons.mp h1 with rfl | h1a
        · exact absurd hx h2
        · exact ⟨h1a, h2⟩
    · rw [if_neg hx]
      constructor
      · intro hmem
        rcases List.mem_cons.mp hmem with rfl | hmem2
        · exact ⟨List.mem_cons_self _ _, hx⟩
        · obtain ⟨h1, h2⟩ := (ih (x :: seen) s).mp hmem2
          exact ⟨List.mem_cons_of_mem _ h1, fun hs => h2 (List.mem_cons_of_mem _ hs)⟩
      · rintro ⟨h1, h2⟩
        rcases List.mem_cons.mp h1 with rfl | h1a
        · exact List.mem_cons_self _ _
        · by_cases hsx : s = x
          · subst hsx; exact List.mem_cons_self _ _
          · refine List.mem_cons_of_mem _ ((ih (x :: seen) s).mpr ⟨h1a, ?_⟩)
            intro hs
            rcases List.mem_cons.mp hs with h | h
            · exact hsx h
            · exact h2 h

theorem nodup_dedupAux (l : List String) :
    ∀ seen : List String, (dedupAux seen l).Nodup := by
  induction l with
  | nil => intro seen; simp [dedupAux]
  | cons x xs ih =>
    intro seen
    rw [dedupAux]
    by_cases hx : x ∈ seen
    · rw [if_pos hx]; exact ih seen
    · rw [if_neg hx]
      refine List.Nodup.cons (fun hmem => ?_) (ih (x :: seen))
      exact ((mem_dedupAux xs (x :: seen) x).mp hmem).2 (List.mem_cons_self x seen)

theorem mem_dedupKeepFirst (l : List String) (s : String) :
    s ∈ dedupKeepFirst l ↔ s ∈ l := by
  rw [dedupKeepFirst, mem_dedupAux]
  simp

theorem nodup_dedupKeepFirst (l : List String) : (dedupKeepFirst l).Nodup :=
  nodup_dedupAux l []

theorem mem_collectIsins (rows : List EarningsRow) (s : String) :
    s ∈ collectIsins rows ↔ s ≠ "" ∧ s ∈ rows.map EarningsRow.isin := by
  rw [collectIsins, mem_dedupKeepFirst, List.mem_filter]
  simp [and_comm]

theorem nodup_collectIsins (rows : List EarningsRow) :
    (collectIsins rows).Nodup := nodup_dedupKeepFirst _

/-- Unfolding of `loadUpcomingEarnings` on a successful non-empty
primary query. -/
theorem load_ok (db : SupabaseEnv) (data : List EarningsRow)
    (he : db.earnings = ⟨some data, none⟩) (hne : data ≠ []) :
    loadUpcomingEarnings db =
      (data.map (fun row =>
        { toEarningsRow := row
          company := companyMapGet (depCompanies db (collectIsins data)) row.isin
          report := reportMapGet ((depReports db (collectIsins data)).filter
            (fun r => truthyStr r.storage_url)) row.isin }),
       issuedCalls (collectIsins data)) := by
  cases data with
  | nil => exact absurd rfl hne
  | cons a as => simp [loadUpcomingEarnings, he]

/-! ## Concrete inputs used by the witnesses -/

def eventA : EarningsRow :=
  { id := 1, isin := "US0000000001", date := "2026-10-12", source := some "vendor",
    created_at := "2026-10-01T00:00:00Z" }

def eventB : EarningsRow :=
  { id := 2, isin := "US0000000002", date := "2026-10-13", source := none,
    created_at := "2026-10-02T00:00:00Z" }

def companyA : CompanyRow :=
  { isin := "US0000000001", friendly_name := some "Acme", name := some "Acme Corporation",
    market_cap_millions_usd := some (JSNum.val 1500), country := some "US",
    ticker := some " ACME " }

def reportA : ReportRow :=
  { isin := "US0000000001", storage_url := some "rpt://a.pdf",
    generated_at := some "2026-10-01" }

def dbOk : SupabaseEnv :=
  { earnings := ⟨some [eventA, eventB], none⟩,
    companies := ⟨some [companyA], none⟩,
    reports := ⟨some [reportA], none⟩ }

def dbPrimaryFail : SupabaseEnv :=
  { earnings := ⟨none, some "connection refused"⟩,
    companies := ⟨some [companyA], none⟩,
    reports := ⟨some [reportA], none⟩ }

def dbCompanyFail : SupabaseEnv :=
  { earnings := ⟨some [eventA, eventB], none⟩,
    companies := ⟨none, some "company lookup failed"⟩,
    reports := ⟨some [reportA], none⟩ }

def dbEmptyIsin : SupabaseEnv :=
  { earnings := ⟨some [{ eventA with isin := "" }], none⟩,
    companies := ⟨some [companyA], none⟩,
    reports := ⟨some [reportA], none⟩ }

/-! ## Claim theorems -/

theorem map_map_toEarningsRow (rows : List EarningsRow)
    (f : EarningsRow → Option CompanyRow) (g : EarningsRow → Option ReportRow) :
    (rows.map (fun row =>
      ({ toEarningsRow := row, company := f row, report := g row } : CalendarRow))).map
      CalendarRow.toEarningsRow = rows := by
  induction rows with
  | nil => rfl
  | cons a as ih => simpa using ih

theorem load_fst_map (db : SupabaseEnv) (data : List EarningsRow)
    (he : db.earnings = ⟨some data, none⟩) :
    (loadUpcomingEarnings db).1.map CalendarRow.toEarningsRow = data := by
  cases data with
  | nil => simp [loadUpcomingEarnings, he]
  | cons a as =>
    rw [load_ok db (a :: as) he (by simp)]
    exact map_map_toEarningsRow _ _ _

/-- C1: for every result of the primary earnings query,
`loadUpcomingEarnings` returns exactly one output record per earnings
row — none dropped, none duplicated — preserving the primary query's
order, so the output count equals the primary row count. -/
theorem loadUpcomingEarnings_left_join (db : SupabaseEnv) (data : List EarningsRow)
    (he : db.earnings = ⟨some data, none⟩) :
    (loadUpcomingEarnings db).1.map CalendarRow.toEarningsRow = data ∧
    (loadUpcomingEarnings db).1.length = data.length := by
  have hmap := load_fst_map db data he
  exact ⟨hmap, by rw [← hmap, List.length_map]⟩

theorem loadUpcomingEarnings_left_join_witness :
    (loadUpcomingEarnings dbOk).1.map CalendarRow.toEarningsRow = [eventA, eventB] ∧
    (loadUpcomingEarnings dbOk).1.length = 2 :=
  loadUpcomingEarnings_left_join dbOk [eventA, eventB] rfl

/-- C2: if the primary earnings query fails or returns zero rows,
`loadUpcomingEarnings` returns the empty sequence at once and issues
neither dependent lookup. -/
theorem loadUpcomingEarnings_short_circuit (db : SupabaseEnv)
    (h : db.earnings.error.isSome = true ∨ db.earnings.data.getD [] = []) :
    loadUpcomingEarnings db = ([], [DBCall.earningsQuery]) := by
  cases herr : db.earnings.error with
  | some m => simp [loadUpcomingEarnings, herr]
  | none =>
    rcases h with h | h
    · rw [herr] at h; simp at h
    · simp [loadUpcomingEarnings, herr, h]

theorem loadUpcomingEarnings_short_circuit_witness :
    loadUpcomingEarnings dbPrimaryFail = ([], [DBCall.earningsQuery]) :=
  loadUpcomingEarnings_short_circuit dbPrimaryFail (Or.inl (by decide))

/-- C10: the merge leaves every primary field of each record unchanged:
at every position, the output record's underlying earnings row is the
input row at that position; only the optional company and report fields
are attached. -/
theorem merge_preserves_primary_fields (db : SupabaseEnv) (data : List EarningsRow)
    (he : db.earnings = ⟨some data, none⟩) (i : Nat) :
    ((loadUpcomingEarnings db).1[i]?).map CalendarRow.toEarningsRow = data[i]? := by
  have hmap := load_fst_map db data he
  rw [← hmap, List.getElem?_map]

theorem merge_preserves_primary_fields_witness :
    ((loadUpcomingEarnings dbOk).1[0]?).map CalendarRow.toEarningsRow = [eventA, eventB][0]? :=
  merge_preserves_primary_fields dbOk [eventA, eventB] rfl 0

theorem depCompanies_of_no_data (db : SupabaseEnv) (isins : List String)
    (h : db.companies.data = none) : depCompanies db isins = [] := by
  rw [depCompanies]
  split
  · rw [h]; rfl
  · rfl

theorem depReports_of_no_data (db : SupabaseEnv) (isins : List String)
    (h : db.reports.data = none) : depReports db isins = [] := by
  rw [depReports]
  split
  · rw [h]; rfl
  · rfl

/-- C3: `loadUpcomingEarnings` is a total function and a failed
dependent lookup is treated as no rows for that query alone: if the
company lookup errors, every event still appears (in order) with the
company dimension absent while the report enrichment is still the
per-isin lookup into the report query's rows; symmetrically, if the
report lookup errors, every event still appears with the report
dimension absent while the company enrichment is still the per-isin
lookup into the company query's rows. -/
theorem loadUpcomingEarnings_dependent_failure (db : SupabaseEnv) (data : List EarningsRow)
    (he : db.earnings = ⟨some data, none⟩) :
    ((∃ msg, db.companies = ⟨none, some msg⟩) →
      (loadUpcomingEarnings db).1.map CalendarRow.toEarningsRow = data ∧
      (∀ r ∈ (loadUpcomingEarnings db).1, r.company = none) ∧
      (∀ r ∈ (loadUpcomingEarnings db).1, r.report =
        reportMapGet ((depReports db (collectIsins data)).filter
          (fun x => truthyStr x.storage_url)) r.isin)) ∧
    ((∃ msg, db.reports = ⟨none, some msg⟩) →
      (loadUpcomingEarnings db).1.map CalendarRow.toEarningsRow = data ∧
      (∀ r ∈ (loadUpcomingEarnings db).1, r.report = none) ∧
      (∀ r ∈ (loadUpcomingEarnings db).1, r.company =
        companyMapGet (depCompanies db (collectIsins data)) r.isin)) := by
  constructor
  · rintro ⟨msg, hc⟩
    refine ⟨load_fst_map db data he, ?_, ?_⟩
    · cases data with
      | nil => intro r hr; simp [loadUpcomingEarnings, he] at hr
      | cons a as =>
        rw [load_ok db (a :: as) he (by simp)]
        intro r hr
        simp only [List.mem_map] at hr
        obtain ⟨row, _, rfl⟩ := hr
        show companyMapGet (depCompanies db (collectIsins (a :: as))) row.isin = none
        rw [depCompanies_of_no_data db _ (by rw [hc])]
        rfl
    · cases data with
      | nil => intro r hr; simp [loadUpcomingEarnings, he] at hr
      | cons a as =>
        rw [load_ok db (a :: as) he (by simp)]
        intro r hr
        simp only [List.mem_map] at hr
        obtain ⟨row, _, rfl⟩ := hr
        rfl
  · rintro ⟨msg, hrep⟩
    refine ⟨load_fst_map db data he, ?_, ?_⟩
    · cases data with
      | nil => intro r hr; simp [loadUpcomingEarnings, he] at hr
      | cons a as =>
        rw [load_ok db (a :: as) he (by simp)]
        intro r hr
        simp only [List.mem_map] at hr
        obtain ⟨row, _, rfl⟩ := hr
        show reportMapGet ((depReports db (collectIsins (a :: as))).filter
          (fun x => truthyStr x.storage_url)) row.isin = none
        rw [depReports_of_no_data db _ (by rw [hrep])]
        rfl
    · cases data with
      | nil => intro r hr; simp [loadUpcomingEarnings, he] at hr
      | cons a as =>
        rw [load_ok db (a :: as) he (by simp)]
        intro r hr
        simp only [List.mem_map] at hr
        obtain ⟨row, _, rfl⟩ := hr
        rfl

def recordBUnenriched : CalendarRow := { toEarningsRow := eventB }

def dbReportFail : SupabaseEnv :=
  { earnings := ⟨some [eventA, eventB], none⟩,
    companies := ⟨some [companyA], none⟩,
    reports := ⟨none, some "report lookup failed"⟩ }

def recordACompanyOnly : CalendarRow :=
  { toEarningsRow := eventA, company := some companyA }

theorem loadUpcomingEarnings_dependent_failure_witness :
    (loadUpcomingEarnings dbCompanyFail).1.map CalendarRow.toEarningsRow = [eventA, eventB] ∧
    recordBUnenriched.company = none ∧
    (loadUpcomingEarnings dbReportFail).1.map CalendarRow.toEarningsRow = [eventA, eventB] ∧
    recordACompanyOnly.report = none := by
  have hc := (loadUpcomingEarnings_dependent_failure dbCompanyFail [eventA, eventB] rfl).1
    ⟨"company lookup failed", rfl⟩
  have hrp := (loadUpcomingEarnings_dependent_failure dbReportFail [eventA, eventB] rfl).2
    ⟨"report lookup failed", rfl⟩
  exact ⟨hc.1, hc.2.1 recordBUnenriched (by decide), hrp.1,
    hrp.2.1 recordACompanyOnly (by decide)⟩

/-- C4: the identifier set passed to the dependent lookups is the
distinct set of non-empty isins of the returned events; when it is
empty, no dependent query is issued and every output record carries
neither company nor report enrichment. -/
theorem dependent_lookup_isins (db : SupabaseEnv) (data : List EarningsRow)
    (he : db.earnings = ⟨some data, none⟩) (hne : data ≠ []) :
    (collectIsins data).Nodup ∧
    (∀ s, s ∈ collectIsins data ↔ s ≠ "" ∧ s ∈ data.map EarningsRow.isin) ∧
    (collectIsins data ≠ [] →
      (loadUpcomingEarnings db).2 =
        [DBCall.earningsQuery, DBCall.companyQuery (collectIsins data),
         DBCall.reportQuery (collectIsins data)]) ∧
    (collectIsins data = [] →
      (loadUpcomingEarnings db).2 = [DBCall.earningsQuery] ∧
      ∀ r ∈ (loadUpcomingEarnings db).1, r.company = none ∧ r.report = none) := by
  obtain ⟨a, as, hdata⟩ := List.exists_cons_of_ne_nil hne
  subst hdata
  rw [load_ok db (a :: as) he (by simp)]
  refine ⟨nodup_collectIsins _, mem_collectIsins _, ?_, ?_⟩
  · intro hni
    have hpos : (collectIsins (a :: as)).length > 0 := List.length_pos.mpr hni
    simp [issuedCalls, hpos]
  · intro hempty
    rw [hempty]
    refine ⟨rfl, ?_⟩
    intro r hr
    simp only [List.mem_map] at hr
    obtain ⟨row, _, rfl⟩ := hr
    constructor
    · show companyMapGet (depCompanies db []) row.isin = none
      rfl
    · show reportMapGet ((depReports db []).filter (fun x => truthyStr x.storage_url)) row.isin = none
      rfl

theorem dependent_lookup_isins_witness :
    (collectIsins [{ eventA with isin := "" }]).Nodup ∧
    (loadUpcomingEarnings dbEmptyIsin).2 = [DBCall.earningsQuery] :=
  ⟨(dependent_lookup_isins dbEmptyIsin [{ eventA with isin := "" }] rfl (by decide)).1,
   ((dependent_lookup_isins dbEmptyIsin [{ eventA with isin := "" }] rfl
      (by decide)).2.2.2 (by decide)).1⟩

/-- C5: `formatCompany` prefers a non-empty friendly name, falls back to
a non-empty formal name, and otherwise returns the bare isin; a profile
with a non-empty friendly name always wins over its formal name. -/
theorem formatCompany_preference (row : CalendarRow) :
    (∀ s, row.company.bind CompanyRow.friendly_name = some s → s ≠ "" →
      formatCompany row = s) ∧
    (truthyStr (row.company.bind CompanyRow.friendly_name) = false →
      ∀ t, row.company.bind CompanyRow.name = some t → t ≠ "" →
        formatCompany row = t) ∧
    (truthyStr (row.company.bind CompanyRow.friendly_name) = false →
      truthyStr (row.company.bind CompanyRow.name) = false →
        formatCompany row = row.isin) := by
  refine ⟨?_, ?_, ?_⟩
  · intro s hs hne
    rw [formatCompany]
    show jsOr (row.company.bind CompanyRow.friendly_name) _ = s
    rw [hs, jsOr, if_neg hne]
  · intro hf t ht htne
    rw [formatCompany]
    show jsOr (row.company.bind CompanyRow.friendly_name)
      (jsOr (row.company.bind CompanyRow.name) row.isin) = t
    cases hfr : row.company.bind CompanyRow.friendly_name with
    | none => rw [jsOr, ht, jsOr, if_neg htne]
    | some f =>
      rw [hfr] at hf
      rw [truthyStr] at hf
      have hfe : f = "" := by simpa using hf
      rw [jsOr, if_pos hfe, ht, jsOr, if_neg htne]
  · intro hf hn
    rw [formatCompany]
    show jsOr (row.company.bind CompanyRow.friendly_name)
      (jsOr (row.company.bind CompanyRow.name) row.isin) = row.isin
    have hinner : jsOr (row.company.bind CompanyRow.name) row.isin = row.isin := by
      cases hna : row.company.bind CompanyRow.name with
      | none => rw [jsOr]
      | some n =>
        rw [hna, truthyStr] at hn
        have : n = "" := by simpa using hn
        rw [jsOr, if_pos this]
    cases hfr : row.company.bind CompanyRow.friendly_name with
    | none => rw [jsOr, hinner]
    | some f =>
      rw [hfr, truthyStr] at hf
      have : f = "" := by simpa using hf
      rw [jsOr, if_pos this, hinner]

def rowFriendly : CalendarRow := { toEarningsRow := eventA, company := some companyA }

def rowNameOnly : CalendarRow :=
  { toEarningsRow := eventA,
    company := some { companyA with friendly_name := none } }

def rowBare : CalendarRow := { toEarningsRow := eventA, company := none }

theorem formatCompany_preference_witness :
    formatCompany rowFriendly = "Acme" ∧
    formatCompany rowNameOnly = "Acme Corporation" ∧
    formatCompany rowBare = "US0000000001" :=
  ⟨(formatCompany_preference rowFriendly).1 "Acme" rfl (by decide),
   (formatCompany_preference rowNameOnly).2.1 (by decide) "Acme Corporation" rfl (by decide),
   (formatCompany_preference rowBare).2.2 (by decide) (by decide)⟩

theorem filter_truthy_getD (l : List (Option String)) :
    (l.filter truthyStr).map (fun v => v.getD "") =
      (l.filterMap id).filter (fun s => decide (s ≠ "")) := by
  induction l with
  | nil => rfl
  | cons a as ih =>
    cases a with
    | none => simpa [truthyStr] using ih
    | some s =>
      by_cases hs : s = ""
      · subst hs; simpa [truthyStr] using ih
      · simp [truthyStr, hs, ih]

/-- C6: the rendered ticker line equals its specification: join the
non-empty values among trimmed ticker, isin and country with the
separator, omitting empty or missing parts, falling back to the bare
isin when the joined string is empty. -/
theorem tickerLine_matches_spec (row : CalendarRow) :
    tickerLineDisplay row = tickerLineFromSpec row := by
  rw [tickerLineDisplay, tickerLineFromSpec, formatTicker]
  rw [filter_truthy_getD]

theorem dollar_append_ne_dash (s : String) : ("$" ++ s) ≠ "—" := by
  intro h
  have h2 := congrArg String.data h
  rw [String.data_append] at h2
  have e1 : "$".data = ['$'] := rfl
  have e2 : "—".data = ['—'] := rfl
  rw [e1, e2] at h2
  simp only [List.cons_append, List.nil_append] at h2
  injection h2 with h3 h4
  exact absurd h3 (by decide)

theorem negdollar_append_ne_dash (s : String) : ("-$" ++ s) ≠ "—" := by
  intro h
  have h2 := congrArg String.data h
  rw [String.data_append] at h2
  have e1 : "-$".data = ['-', '$'] := rfl
  have e2 : "—".data = ['—'] := rfl
  rw [e1, e2] at h2
  simp only [List.cons_append, List.nil_append] at h2
  injection h2 with h3 h4
  exact absurd h3 (by decide)

theorem formatCurrencyCompact_ne_dash (q : ℚ) : formatCurrencyCompact q ≠ "—" := by
  rw [formatCurrencyCompact]
  split
  · exact negdollar_append_ne_dash _
  · exact dollar_append_ne_dash _

/-- C7: `formatMarketCap` yields the placeholder dash exactly for a null
or NaN input; every numeric input is multiplied by one million and
rendered as a compact currency string (a "$"- or "-$"-prefixed string),
and 1500.0 million renders as "$1.5B". -/
theorem formatMarketCap_spec :
    (∀ x, formatMarketCap x = "—" ↔ (x = none ∨ x = some JSNum.nan)) ∧
    (∀ q : ℚ, ∃ s, formatMarketCap (some (JSNum.val q)) = "$" ++ s ∨
      formatMarketCap (some (JSNum.val q)) = "-$" ++ s) ∧
    formatMarketCap (some (JSNum.val 1500)) = "$1.5B" := by
  refine ⟨?_, ?_, ?_⟩
  · intro x
    constructor
    · intro h
      match x with
      | none => exact Or.inl rfl
      | some JSNum.nan => exact Or.inr rfl
      | some (JSNum.val q) => exact absurd h (formatCurrencyCompact_ne_dash _)
    · rintro (rfl | rfl) <;> rfl
  · intro q
    by_cases hq : q * 1000000 < 0
    · refine ⟨compactAbs (-(q * 1000000)), Or.inr ?_⟩
      show formatCurrencyCompact (q * 1000000) = _
      rw [formatCurrencyCompact, if_pos hq]
    · refine ⟨compactAbs (q * 1000000), Or.inl ?_⟩
      show formatCurrencyCompact (q * 1000000) = _
      rw [formatCurrencyCompact, if_neg hq]
  · show formatCurrencyCompact ((1500 : ℚ) * 1000000) = "$1.5B"
    have h1 : (1500 : ℚ) * 1000000 = 1500000000 := by norm_num
    rw [h1, formatCurrencyCompact, if_neg (by norm_num : ¬(1500000000 : ℚ) < 0), compactAbs,
      if_neg (by norm_num : ¬(1500000000 : ℚ) < 1000),
      if_neg (by norm_num : ¬(1500000000 : ℚ) < 1000000),
      if_neg (by norm_num : ¬(1500000000 : ℚ) < 1000000000),
      if_pos (by norm_num : (1500000000 : ℚ) < 1000000000000)]
    have h2 : (1500000000 : ℚ) / 1000000000 = 3 / 2 := by norm_num
    rw [h2, roundTenths]
    have h3 : (3 / 2 : ℚ) * 10 + 1 / 2 = 31 / 2 := by norm_num
    rw [h3, (by norm_num : ⌊(31 / 2 : ℚ)⌋ = 15)]
    decide

/-- C8: a report row lacking a storage URL is filtered out before the
lookup map is built, so an output record is only ever enriched with a
report whose storage URL is present and non-empty. -/
theorem report_enrichment_has_url (db : SupabaseEnv) (r : CalendarRow) (rep : ReportRow)
    (hr : r ∈ (loadUpcomingEarnings db).1) (hrep : r.report = some rep) :
    ∃ u, rep.storage_url = some u ∧ u ≠ "" := by
  cases herr : db.earnings.error with
  | some m =>
    have hout : (loadUpcomingEarnings db).1 = [] := by simp [loadUpcomingEarnings, herr]
    rw [hout] at hr
    simp at hr
  | none =>
    cases hd : db.earnings.data with
    | none =>
      have hout : (loadUpcomingEarnings db).1 = [] := by
        simp [loadUpcomingEarnings, herr, hd]
      rw [hout] at hr
      simp at hr
    | some data =>
      have he : db.earnings = ⟨some data, none⟩ := by
        have heta : db.earnings = ⟨db.earnings.data, db.earnings.error⟩ := rfl
        rw [heta, herr, hd]
      cases data with
      | nil =>
        have hout : (loadUpcomingEarnings db).1 = [] := by
          simp [loadUpcomingEarnings, he]
        rw [hout] at hr
        simp at hr
      | cons a as =>
        rw [load_ok db (a :: as) he (by simp)] at hr
        simp only [List.mem_map] at hr
        obtain ⟨row, _, rfl⟩ := hr
        have hrep2 : reportMapGet ((depReports db (collectIsins (a :: as))).filter
            (fun x => truthyStr x.storage_url)) row.isin = some rep := hrep
        rw [reportMapGet] at hrep2
        have hmem := List.mem_of_find?_eq_some hrep2
        rw [List.mem_reverse] at hmem
        have htr := (List.mem_filter.mp hmem).2
        cases hurl : rep.storage_url with
        | none => rw [hurl] at htr; simp [truthyStr] at htr
        | some u =>
          rw [hurl] at htr
          refine ⟨u, rfl, ?_⟩
          simpa [truthyStr] using htr

def enrichedRecordA : CalendarRow :=
  { toEarningsRow := eventA, company := some companyA, report := some reportA }

theorem report_enrichment_has_url_witness :
    ∃ u, reportA.storage_url = some u ∧ u ≠ "" :=
  report_enrichment_has_url dbOk enrichedRecordA reportA (by decide) (by decide)

/-- C9: events sharing an isin each appear in the output and receive the
same company and report enrichment (the lookup maps are keyed by isin,
not by event id); when several profile or report rows share an isin, the
attached row is the last such row in the lookup result (last-write-wins
keyed map). -/
theorem shared_isin_same_enrichment (db : SupabaseEnv) (data : List EarningsRow)
    (he : db.earnings = ⟨some data, none⟩) :
    (∀ r1 ∈ (loadUpcomingEarnings db).1, ∀ r2 ∈ (loadUpcomingEarnings db).1,
      r1.isin = r2.isin → r1.company = r2.company ∧ r1.report = r2.report) ∧
    (∀ (l1 l2 : List CompanyRow) (c : CompanyRow) (k : String),
      c.isin = k → (∀ c2 ∈ l2, c2.isin ≠ k) →
      companyMapGet (l1 ++ c :: l2) k = some c) ∧
    (∀ (l1 l2 : List ReportRow) (rp : ReportRow) (k : String),
      rp.isin = k → (∀ r2 ∈ l2, r2.isin ≠ k) →
      reportMapGet (l1 ++ rp :: l2) k = some rp) := by
  refine ⟨?_, ?_, ?_⟩
  · cases data with
    | nil =>
      intro r1 h1
      simp [loadUpcomingEarnings, he] at h1
    | cons a as =>
      rw [load_ok db (a :: as) he (by simp)]
      intro r1 h1 r2 h2 hisin
      simp only [List.mem_map] at h1 h2
      obtain ⟨row1, _, rfl⟩ := h1
      obtain ⟨row2, _, rfl⟩ := h2
      have hh : row1.isin = row2.isin := hisin
      constructor
      · show companyMapGet _ row1.isin = companyMapGet _ row2.isin
        rw [hh]
      · show reportMapGet _ row1.isin = reportMapGet _ row2.isin
        rw [hh]
  · intro l1 l2 c k hc hl2
    rw [companyMapGet, List.reverse_append, List.reverse_cons, List.find?_append,
      List.find?_append]
    have hnone : l2.reverse.find? (fun x => x.isin == k) = none := by
      rw [List.find?_eq_none]
      intro x hx
      simp only [List.mem_reverse] at hx
      simpa using hl2 x hx
    have hsome : [c].find? (fun x => x.isin == k) = some c :=
      List.find?_cons_of_pos _ (by simp [hc])
    rw [hnone, hsome]
    rfl
  · intro l1 l2 rp k hrp hl2
    rw [reportMapGet, List.reverse_append, List.reverse_cons, List.find?_append,
      List.find?_append]
    have hnone : l2.reverse.find? (fun x => x.isin == k) = none := by
      rw [List.find?_eq_none]
      intro x hx
      simp only [List.mem_reverse] at hx
      simpa using hl2 x hx
    have hsome : [rp].find? (fun x => x.isin == k) = some rp :=
      List.find?_cons_of_pos _ (by simp [hrp])
    rw [hnone, hsome]
    rfl

theorem shared_isin_same_enrichment_witness :
    companyMapGet [{ companyA with name := some "Old" }, companyA] "US0000000001" =
      some companyA :=
  (shared_isin_same_enrichment dbOk [eventA, eventB] rfl).2.1
    [{ companyA with name := some "Old" }] [] companyA "US0000000001" rfl
    (by intro c2 h; simp at h)
